import Mathlib

/-!
# rwcancel: cancellable read/write over a non-blocking descriptor

A shallow embedding of `rwcancel/rwcancel_unix.go`.

* Go's `int` and `uint` are the 64-bit types; values are `Int`/`Nat` with explicit
  wrap-around (`toInt`, `toUint`) where the source converts or adds.
* `unix.FdSet` on a 64-bit Linux target is `Bits [16]int64`; a word is held as its
  64-bit pattern (a natural number), bit 63 being the sign bit of the `int64`.
* An index expression out of range panics in Go, and so does a field access through
  a nil pointer; the operations that index `Bits` and `ErrorIsEAGAIN` return `Option`,
  `none` standing for the run-time panic.
* The system calls (`unix.Read`, `unix.Write`, `unixSelect`) are not part of the
  package: their answers are supplied as scripts (lists of outcomes), and every
  run records the calls it issued.
-/

namespace rwcancel

/-! ## Machine integers -/

/-- A byte of a buffer. -/
abbrev Byte := Nat

/-- Wrap-around into the range of Go's 64-bit `int` (the result of `int` arithmetic). -/
def toInt (x : Int) : Int :=
  (x + ((2 ^ 63 : Nat) : Int)) % ((2 ^ 64 : Nat) : Int) - ((2 ^ 63 : Nat) : Int)

/-- Conversion `int(u)` of a `uintptr` (a 64-bit unsigned value): the upper half of the
range maps to the negative numbers. -/
def ofUintptr (u : Nat) : Int :=
  if u < 2 ^ 63 then (u : Int) else (u : Int) - ((2 ^ 64 : Nat) : Int)

/-- Conversion `uint(x)` of an `int` to the 64-bit `uint`. -/
def toUint (x : Int) : Nat := (x % ((2 ^ 64 : Nat) : Int)).toNat

/-- The value of `^uint(0)`: all 64 bits set. -/
def uintMax : Nat := 2 ^ 64 - 1

/-- The expression `32 << (^uint(0) >> 63)` of `set` and `check`: the number of bits
in a word of the descriptor set. -/
def bits : Int := ((32 <<< (uintMax >>> 63) : Nat) : Int)

/-- The expression `1 << s` at type `int64` with a `uint` shift count `s`, as a 64-bit
pattern: the bits shifted past bit 63 are lost, so a count of 64 or more gives 0. -/
def shl1 (s : Nat) : Nat := if s < 64 then (1 <<< s) % 2 ^ 64 else 0

/-! ## fdSet -/

/-- The type `fdSet`, wrapping `unix.FdSet` whose only field is `Bits [16]int64`. -/
structure fdSet where
  /-- The sixteen words, each as a 64-bit pattern. -/
  Bits : Fin 16 → Nat

instance : DecidableEq fdSet := fun a b =>
  decidable_of_iff (a.Bits = b.Bits)
    ⟨fun h => by cases a; cases b; cases h; rfl, fun h => by rw [h]⟩

/-- The zero value `fdSet{}`. -/
def fdSet.zero : fdSet := ⟨fun _ => 0⟩

/-- Bounds check of the index expression `Bits[q]`: `none` is the index-out-of-range
panic. -/
def wordIndex (q : Int) : Option (Fin 16) :=
  if h : 0 ≤ q ∧ q < 16 then some ⟨q.toNat, by omega⟩ else none

/-- The method `set`: `fdset.fdset.Bits[i/bits] |= 1 << uint(i%bits)`. Go's `/` and `%`
truncate toward zero. -/
def fdSet.set (fdset : fdSet) (i : Int) : Option fdSet :=
  match wordIndex (i.tdiv bits) with
  | none => none
  | some k =>
    some ⟨Function.update fdset.Bits k (fdset.Bits k ||| shl1 (toUint (i.tmod bits)))⟩

/-- The method `check`: `(fdset.fdset.Bits[i/bits] & (1 << uint(i%bits))) != 0`. -/
def fdSet.check (fdset : fdSet) (i : Int) : Option Bool :=
  match wordIndex (i.tdiv bits) with
  | none => none
  | some k => some ((fdset.Bits k &&& shl1 (toUint (i.tmod bits))) != 0)

/-- The function `max`. -/
def max (a b : Int) : Int := if a > b then a else b

/-! ## Errors -/

/-- A value of Go's interface type `error`, by dynamic type: the nil interface, a
`syscall.Errno`, a `*os.PathError` (either a pointer to a value with the fields `Op`,
`Path`, `Err`, or the nil pointer boxed in the interface), the `*errors.errorString` made
by `errors.New`, or a value of any other type (named by `typ`) around an inner error. -/
inductive Error where
  | nil
  | errno (e : Nat)
  | pathError (op path : String) (err : Error)
  | nilPathError
  | errorString (s : String)
  | other (typ : String) (err : Error)
deriving DecidableEq, Repr

/-- The type assertion `pe, ok := err.(*os.PathError)`: `none` when `ok` is false;
otherwise what evaluating `pe.Err` gives, which is `none` (a nil dereference) when `pe`
is the nil pointer. -/
def Error.asPathError (x : Error) : Option (Option Error) :=
  match x with
  | .pathError _ _ err => some (some err)
  | .nilPathError => some none
  | _ => none

/-- The type assertion `err.(syscall.Errno)`. -/
def Error.asErrno (x : Error) : Option Nat :=
  match x with
  | .errno e => some e
  | _ => none

/-- The second test of `ErrorIsEAGAIN` and its final `return false`:
`errno, ok := err.(syscall.Errno); ok && errno == syscall.EAGAIN`. -/
def isErrnoEAGAIN (EAGAIN : Nat) (err : Error) : Bool :=
  if (match err.asErrno with
      | some errno => errno == EAGAIN
      | none => false) then true
  else false

/-- The function `ErrorIsEAGAIN`; the constant `syscall.EAGAIN` of the target platform
is the parameter `EAGAIN`. `none` is the panic of `pe.Err` on a nil `pe`. -/
def ErrorIsEAGAIN (EAGAIN : Nat) (err : Error) : Option Bool :=
  match err.asPathError with
  | some none => none
  | some (some peErr) =>
    if (match peErr.asErrno with
        | some errno => errno == EAGAIN
        | none => false) then some true
    else some (isErrnoEAGAIN EAGAIN err)
  | none => some (isErrnoEAGAIN EAGAIN err)

/-! ## The channel and its system calls -/

/-- An `*os.File`, known here by the descriptor its method `Fd()` returns (a `uintptr`). -/
structure File where
  /-- The value of `Fd()`. -/
  Fd : Nat
deriving DecidableEq, Repr

/-- The type `RWCancel`. -/
structure RWCancel where
  /-- The wrapped descriptor. -/
  fd : Int
  /-- The read end of the signalling pipe. -/
  closingReader : File
  /-- The write end of the signalling pipe. -/
  closingWriter : File
deriving DecidableEq, Repr

/-- The local `closeFd := int(rw.closingReader.Fd())` of `ReadyRead` and `ReadyWrite`. -/
def RWCancel.closeFd (rw : RWCancel) : Int := ofUintptr rw.closingReader.Fd

/-- The arguments of one call `unixSelect(nfd, r, w, e, timeout)`; a pointer argument
is `none` when nil, and otherwise holds the set it points to at the time of the call. -/
structure SelectCall where
  /-- The upper bound on the descriptors examined. -/
  nfd : Int
  /-- The set watched for read-readiness. -/
  r : Option fdSet
  /-- The set watched for write-readiness. -/
  w : Option fdSet
  /-- The set watched for exceptional conditions. -/
  e : Option fdSet
  /-- The timeout, seconds and microseconds. -/
  timeout : Option (Int × Int)

instance : DecidableEq SelectCall := fun a b =>
  decidable_of_iff ((a.nfd, a.r, a.w, a.e, a.timeout) = (b.nfd, b.r, b.w, b.e, b.timeout))
    ⟨fun h => by cases a; cases b; cases h; rfl, fun h => by rw [h]⟩

/-- What one call of `unixSelect` answers: the error it returns and the contents it
leaves in the one descriptor set that was passed by pointer. -/
structure SelectOutcome where
  /-- The returned error. -/
  err : Error
  /-- The set after the call: the descriptors reported ready. -/
  fdset : fdSet

instance : DecidableEq SelectOutcome := fun a b =>
  decidable_of_iff ((a.err, a.fdset) = (b.err, b.fdset))
    ⟨fun h => by cases a; cases b; cases h; rfl, fun h => by rw [h]⟩

/-- What one call of `unix.Read(fd, p)` answers: the returned pair and the bytes the
kernel stored at the front of `p`. -/
structure ReadOutcome where
  /-- The returned count. -/
  n : Int
  /-- The returned error. -/
  err : Error
  /-- The bytes stored into the buffer. -/
  data : List Byte
deriving DecidableEq, Repr

/-- What one call of `unix.Write(fd, p)` answers. -/
structure WriteOutcome where
  /-- The returned count. -/
  n : Int
  /-- The returned error. -/
  err : Error
deriving DecidableEq, Repr

/-- The buffer `p` after the kernel stored `data` at its front; its length is kept. -/
def store (data p : List Byte) : List Byte := (data ++ p.drop data.length).take p.length

/-- A system call issued by the package. -/
inductive Syscall where
  | read (fd : Int) (len : Nat)
  | write (fd : Int) (p : List Byte)
  | select (c : SelectCall)

/-- A system call as a value of a sum type, for deciding equality. -/
def Syscall.code (c : Syscall) : (Int × Nat) ⊕ ((Int × List Byte) ⊕ SelectCall) :=
  match c with
  | Syscall.read fd len => Sum.inl (fd, len)
  | Syscall.write fd p => Sum.inr (Sum.inl (fd, p))
  | Syscall.select c => Sum.inr (Sum.inr c)

instance : DecidableEq Syscall := fun a b =>
  decidable_of_iff (a.code = b.code)
    ⟨fun h => by cases a <;> cases b <;> simp [Syscall.code] at h <;> simp [h],
      fun h => by rw [h]⟩

/-- The descriptor set that `ReadyRead` and `ReadyWrite` build before they call select,
by `fdset.set(rw.fd)` and `fdset.set(closeFd)`; `none` when one of the marks panics, in
which case select is not called. -/
def RWCancel.watched (rw : RWCancel) : Option fdSet :=
  (fdSet.zero.set rw.fd).bind (fun fdset => fdset.set rw.closeFd)

/-- The select call that `ReadyRead` issues (its lines up to the call); `none` when a
mark panics before it. -/
def RWCancel.readCall (rw : RWCancel) : Option SelectCall :=
  rw.watched.map (fun fdset => ⟨toInt (max rw.fd rw.closeFd + 1), some fdset, none, none, none⟩)

/-- The select call that `ReadyWrite` issues (its lines up to the call); `none` when a
mark panics before it. -/
def RWCancel.writeCall (rw : RWCancel) : Option SelectCall :=
  rw.watched.map (fun fdset => ⟨toInt (max rw.fd rw.closeFd + 1), none, some fdset, none, none⟩)

/-- The method `ReadyRead`, given the answer `o` of its `unixSelect` call; the result
carries the arguments of that call. `none` is a panic in `set` or `check`. -/
def RWCancel.ReadyRead (rw : RWCancel) (o : SelectOutcome) : Option (SelectCall × Bool) :=
  let closeFd := rw.closeFd
  let fdset := fdSet.zero
  match fdset.set rw.fd with
  | none => none
  | some fdset =>
    match fdset.set closeFd with
    | none => none
    | some fdset =>
      let call : SelectCall := ⟨toInt (max rw.fd closeFd + 1), some fdset, none, none, none⟩
      let err := o.err
      let fdset := o.fdset
      if err ≠ Error.nil then some (call, false)
      else
        match fdset.check closeFd with
        | none => none
        | some true => some (call, false)
        | some false =>
          match fdset.check rw.fd with
          | none => none
          | some b => some (call, b)

/-- The method `ReadyWrite`, given the answer `o` of its `unixSelect` call. -/
def RWCancel.ReadyWrite (rw : RWCancel) (o : SelectOutcome) : Option (SelectCall × Bool) :=
  let closeFd := rw.closeFd
  let fdset := fdSet.zero
  match fdset.set rw.fd with
  | none => none
  | some fdset =>
    match fdset.set closeFd with
    | none => none
    | some fdset =>
      let call : SelectCall := ⟨toInt (max rw.fd closeFd + 1), none, some fdset, none, none⟩
      let err := o.err
      let fdset := o.fdset
      if err ≠ Error.nil then some (call, false)
      else
        match fdset.check closeFd with
        | none => none
        | some true => some (call, false)
        | some false =>
          match fdset.check rw.fd with
          | none => none
          | some b => some (call, b)

/-- How a call of `Read` or `Write` ends. -/
inductive Outcome where
  /-- The call returned `(n, err)`. -/
  | returned (n : Int) (err : Error)
  /-- The call panicked: an index out of range, or a nil dereference. -/
  | panicked
  /-- The scripts gave no further answer: the call has not returned. -/
  | running
deriving DecidableEq, Repr

/-- A run of `Read` or `Write`: how it ended, the buffer `p` at that point, and the
system calls issued, in order. -/
structure Run where
  /-- How the call ended. -/
  outcome : Outcome
  /-- The contents of the buffer. -/
  p : List Byte
  /-- The system calls issued. -/
  calls : List Syscall

instance : DecidableEq Run := fun a b =>
  decidable_of_iff ((a.outcome, a.p, a.calls) = (b.outcome, b.p, b.calls))
    ⟨fun h => by cases a; cases b; cases h; rfl, fun h => by rw [h]⟩

/-- The run `r` preceded by the calls `cs`. -/
def Run.after (cs : List Syscall) (r : Run) : Run := ⟨r.outcome, r.p, cs ++ r.calls⟩

/-- The error value `errors.New("fd closed")`. -/
def fdClosed : Error := Error.errorString "fd closed"

/-- The method `Read`: `reads` are the answers of the successive `unix.Read` calls and
`waits` those of the successive `unixSelect` calls. A call that the scripts do not answer
is issued and the run is left `running` there. -/
def RWCancel.Read (EAGAIN : Nat) (rw : RWCancel) (p : List Byte) :
    List ReadOutcome → List SelectOutcome → Run
  | [], _ => ⟨Outcome.running, p, [Syscall.read rw.fd p.length]⟩
  | a :: reads, waits =>
    let n := a.n
    let err := a.err
    let p1 := store a.data p
    if err = Error.nil ∨ ErrorIsEAGAIN EAGAIN err = some false then
      ⟨Outcome.returned n err, p1, [Syscall.read rw.fd p.length]⟩
    else if ErrorIsEAGAIN EAGAIN err = none then
      ⟨Outcome.panicked, p1, [Syscall.read rw.fd p.length]⟩
    else
      match waits with
      | [] =>
        match rw.readCall with
        | none => ⟨Outcome.panicked, p1, [Syscall.read rw.fd p.length]⟩
        | some c => ⟨Outcome.running, p1, [Syscall.read rw.fd p.length, Syscall.select c]⟩
      | o :: waits =>
        match rw.ReadyRead o with
        | none => ⟨Outcome.panicked, p1, [Syscall.read rw.fd p.length]⟩
        | some (c, false) =>
          ⟨Outcome.returned 0 fdClosed, p1, [Syscall.read rw.fd p.length, Syscall.select c]⟩
        | some (c, true) =>
          (RWCancel.Read EAGAIN rw p1 reads waits).after
            [Syscall.read rw.fd p.length, Syscall.select c]

/-- The method `Write`: `writes` are the answers of the successive `unix.Write` calls and
`waits` those of the successive `unixSelect` calls. A call that the scripts do not answer
is issued and the run is left `running` there. -/
def RWCancel.Write (EAGAIN : Nat) (rw : RWCancel) (p : List Byte) :
    List WriteOutcome → List SelectOutcome → Run
  | [], _ => ⟨Outcome.running, p, [Syscall.write rw.fd p]⟩
  | a :: writes, waits =>
    let n := a.n
    let err := a.err
    if err = Error.nil ∨ ErrorIsEAGAIN EAGAIN err = some false then
      ⟨Outcome.returned n err, p, [Syscall.write rw.fd p]⟩
    else if ErrorIsEAGAIN EAGAIN err = none then
      ⟨Outcome.panicked, p, [Syscall.write rw.fd p]⟩
    else
      match waits with
      | [] =>
        match rw.writeCall with
        | none => ⟨Outcome.panicked, p, [Syscall.write rw.fd p]⟩
        | some c => ⟨Outcome.running, p, [Syscall.write rw.fd p, Syscall.select c]⟩
      | o :: waits =>
        match rw.ReadyWrite o with
        | none => ⟨Outcome.panicked, p, [Syscall.write rw.fd p]⟩
        | some (c, false) =>
          ⟨Outcome.returned 0 fdClosed, p, [Syscall.write rw.fd p, Syscall.select c]⟩
        | some (c, true) =>
          (RWCancel.Write EAGAIN rw p writes waits).after
            [Syscall.write rw.fd p, Syscall.select c]

/-- The number of `unix.Read` and `unix.Write` attempts among the calls. -/
def attempts (cs : List Syscall) : Nat :=
  cs.countP (fun c => match c with
    | Syscall.select _ => false
    | _ => true)

/-- The number of `unixSelect` calls among the calls. -/
def selects (cs : List Syscall) : Nat :=
  cs.countP (fun c => match c with
    | Syscall.select _ => true
    | _ => false)

/-! ## The signalling pipe -/

/-- The state of the signalling pipe: the bytes written to its write end and not yet read
from its read end. -/
abbrev Pipe := List Byte

/-- The method `Cancel`, given the answer `a` of its call of `rw.closingWriter.Write` on a
one-byte slice holding 0: the error returned, the pipe with the accepted bytes queued,
and the call issued. -/
def RWCancel.Cancel (rw : RWCancel) (pipe : Pipe) (a : WriteOutcome) :
    Error × Pipe × List Syscall :=
  let buf : List Byte := [0]
  (a.err, pipe ++ buf.take a.n.toNat, [Syscall.write (ofUintptr rw.closingWriter.Fd) buf])

/-- A wait answer agrees with the pipe. This is a property of the kernel, used as a
hypothesis and not part of the package: while the pipe holds a byte its read end is
ready, so a wait on it that succeeds reports `closeFd` in the set it leaves. -/
def pipeSeen (rw : RWCancel) (pipe : Pipe) (o : SelectOutcome) : Prop :=
  pipe ≠ [] → o.err = Error.nil → o.fdset.check rw.closeFd = some true

instance (rw : RWCancel) (pipe : Pipe) (o : SelectOutcome) : Decidable (pipeSeen rw pipe o) :=
  inferInstanceAs
    (Decidable (pipe ≠ [] → o.err = Error.nil → o.fdset.check rw.closeFd = some true))

/-- A wait answer that reports the wrapped descriptor ready and the pipe not ready. -/
def fdReady (rw : RWCancel) (o : SelectOutcome) : Prop :=
  o.err = Error.nil ∧ o.fdset.check rw.closeFd = some false ∧ o.fdset.check rw.fd = some true

instance (rw : RWCancel) (o : SelectOutcome) : Decidable (fdReady rw o) :=
  inferInstanceAs
    (Decidable (o.err = Error.nil ∧ o.fdset.check rw.closeFd = some false ∧
      o.fdset.check rw.fd = some true))

/-- The answer of a write call with the count and error of a read call. -/
def ReadOutcome.toWrite (a : ReadOutcome) : WriteOutcome := ⟨a.n, a.err⟩

/-! ## Sample values -/

/-- A channel over descriptor 3 whose signalling pipe has the ends 4 (read) and 5 (write). -/
def chan : RWCancel := ⟨3, ⟨4⟩, ⟨5⟩⟩

/-- The bytes of the text hello. -/
def hello : List Byte := [104, 101, 108, 108, 111]

/-- An eight-byte buffer of zeros. -/
def buf8 : List Byte := [0, 0, 0, 0, 0, 0, 0, 0]

/-- A descriptor set whose first word has the pattern `w` and whose other words are zero:
`low 8` holds descriptor 3, `low 16` holds 4, `low 24` holds both. -/
def fdSet.low (w : Nat) : fdSet := ⟨fun k => if k = 0 then w else 0⟩

/-! ## Descriptor sets: marking and querying -/

theorem bits_eq : bits = 64 := by decide

theorem and_two_pow_bne (x r : Nat) : ((x &&& 2 ^ r) != 0) = x.testBit r := by
  rw [Nat.and_two_pow]
  cases h : x.testBit r <;> simp [h]

/-- An index in range splits into a word and a bit of that word. -/
theorem index_split (i : Int) (h0 : 0 ≤ i) (h1 : i < 1024) :
    ∃ k : Fin 16, ∃ r : Nat, r < 64 ∧ i = 64 * (k.val : Int) + (r : Int) ∧
      wordIndex (i.tdiv bits) = some k ∧ shl1 (toUint (i.tmod bits)) = 2 ^ r := by
  have hd : i.tdiv bits = i / 64 := by
    rw [bits_eq]; exact Int.tdiv_eq_ediv h0 (by decide)
  have hm : i.tmod bits = i % 64 := by
    rw [bits_eq]; exact Int.tmod_eq_emod h0 (by decide)
  have hq : 0 ≤ i / 64 ∧ i / 64 < 16 := by omega
  refine ⟨⟨(i / 64).toNat, by omega⟩, (i % 64).toNat, by omega, by simp; omega, ?_, ?_⟩
  · rw [hd]; unfold wordIndex; rw [dif_pos hq]
  · rw [hm]
    have hu : toUint (i % 64) = (i % 64).toNat := by
      unfold toUint
      congr 1
      omega
    rw [hu]
    unfold shl1
    have hlt : (i % 64).toNat < 64 := by omega
    rw [if_pos hlt, Nat.one_shiftLeft]
    exact Nat.mod_eq_of_lt (Nat.pow_lt_pow_right (by decide) hlt)

/-- Marking one in-range index and then querying another: the query is true exactly
when it was already true or the two indices are the same. -/
theorem check_set (s : fdSet) (i j : Int) (hi0 : 0 ≤ i) (hi1 : i < 1024)
    (hj0 : 0 ≤ j) (hj1 : j < 1024) :
    ∃ s1 b, s.set i = some s1 ∧ s.check j = some b ∧
      s1.check j = some (b || decide (j = i)) := by
  obtain ⟨k, r, hr, hi, hk, hs⟩ := index_split i hi0 hi1
  obtain ⟨k2, r2, hr2, hj, hk2, hs2⟩ := index_split j hj0 hj1
  refine ⟨⟨Function.update s.Bits k (s.Bits k ||| 2 ^ r)⟩, (s.Bits k2).testBit r2, ?_, ?_, ?_⟩
  · simp only [fdSet.set, hk, hs]
  · simp only [fdSet.check, hk2, hs2, and_two_pow_bne]
  simp only [fdSet.check, hk2, hs2, and_two_pow_bne]
  congr 1
  by_cases hkk : k2 = k
  · subst hkk
    rw [Function.update_same, Nat.testBit_or, Nat.testBit_two_pow]
    congr 1
    have : (r = r2) ↔ (j = i) := by omega
    simp only [this]
  · rw [Function.update_noteq hkk]
    have hne : j ≠ i := by
      intro h
      apply hkk
      apply Fin.ext
      omega
    simp [hne]

theorem foldlM_set (L : List Int) (hL : ∀ i ∈ L, 0 ≤ i ∧ i < 1024) (s : fdSet)
    (j : Int) (hj0 : 0 ≤ j) (hj1 : j < 1024) :
    ∃ s1 b, L.foldlM fdSet.set s = some s1 ∧ s.check j = some b ∧
      s1.check j = some (b || decide (j ∈ L)) := by
  induction L generalizing s with
  | nil =>
    obtain ⟨k2, r2, hr2, hj, hk2, hs2⟩ := index_split j hj0 hj1
    refine ⟨s, (s.Bits k2).testBit r2, rfl, ?_, ?_⟩ <;>
      simp [fdSet.check, hk2, hs2, and_two_pow_bne]
  | cons i L ih =>
    have hi := hL i (List.mem_cons_self i L)
    obtain ⟨s1, b, h1, h2, h3⟩ := check_set s i j hi.1 hi.2 hj0 hj1
    obtain ⟨s2, b2, h4, h5, h6⟩ := ih (fun x hx => hL x (List.mem_cons_of_mem i hx)) s1
    refine ⟨s2, b, ?_, h2, ?_⟩
    · rw [List.foldlM_cons, h1]; exact h4
    · rw [h6]
      rw [h3] at h5
      injection h5 with h5
      subst h5
      by_cases hji : j = i <;> simp [hji, Bool.or_assoc]

/-! ## The readiness waits -/

theorem toInt_of_range (x : Int) (h0 : -(2 ^ 63) ≤ x) (h1 : x < 2 ^ 63) : toInt x = x := by
  unfold toInt
  norm_num
  omega

theorem max_cases (a b : Int) : (max a b = a ∧ b ≤ a) ∨ (max a b = b ∧ a ≤ b) := by
  unfold max
  split <;> omega

/-- A mark that does not panic on a non-negative index has an index below 1024. -/
theorem lt_of_set (s s1 : fdSet) (i : Int) (h0 : 0 ≤ i) (h : s.set i = some s1) :
    i < 1024 := by
  unfold fdSet.set at h
  cases hk : wordIndex (i.tdiv bits) with
  | none => simp only [hk] at h; cases h
  | some k =>
    unfold wordIndex at hk
    by_cases hq : 0 ≤ i.tdiv bits ∧ i.tdiv bits < 16
    · rw [bits_eq, Int.tdiv_eq_ediv h0 (by decide)] at hq
      omega
    · rw [dif_neg hq] at hk; cases hk

/-- A query that does not panic means a mark at the same index does not panic. -/
theorem set_of_check (s t : fdSet) (i : Int) (b : Bool) (h : s.check i = some b) :
    ∃ t1, t.set i = some t1 := by
  unfold fdSet.check at h
  unfold fdSet.set
  cases hk : wordIndex (i.tdiv bits) with
  | none => simp only [hk] at h; cases h
  | some k => exact ⟨_, rfl⟩

/-- A mark at an in-range index does not panic. -/
theorem set_of_range (t : fdSet) (i : Int) (h0 : 0 ≤ i) (h1 : i < 1024) :
    ∃ t1, t.set i = some t1 := by
  obtain ⟨k, r, _, _, hk, _⟩ := index_split i h0 h1
  unfold fdSet.set
  rw [hk]
  exact ⟨_, rfl⟩

/-- A query at an in-range index does not panic. -/
theorem check_of_range (t : fdSet) (i : Int) (h0 : 0 ≤ i) (h1 : i < 1024) :
    ∃ b, t.check i = some b := by
  obtain ⟨k, r, _, _, hk, _⟩ := index_split i h0 h1
  unfold fdSet.check
  rw [hk]
  exact ⟨_, rfl⟩

/-- The select arguments built by `ReadyRead`. -/
theorem ReadyRead_some (rw : RWCancel) (o : SelectOutcome) (c : SelectCall) (b : Bool)
    (h : rw.ReadyRead o = some (c, b)) :
    ∃ s0 s, fdSet.zero.set rw.fd = some s0 ∧ s0.set rw.closeFd = some s ∧
      c = ⟨toInt (max rw.fd rw.closeFd + 1), some s, none, none, none⟩ := by
  unfold RWCancel.ReadyRead at h
  cases h0 : fdSet.zero.set rw.fd with
  | none => simp only [h0] at h; cases h
  | some s0 =>
    cases h1 : s0.set rw.closeFd with
    | none => simp only [h0, h1] at h; cases h
    | some s =>
      refine ⟨s0, s, rfl, h1, ?_⟩
      simp only [h0, h1] at h
      by_cases he : o.err = Error.nil
      · cases hc : o.fdset.check rw.closeFd with
        | none => simp [he, hc] at h
        | some bc =>
          cases bc
          · cases hf : o.fdset.check rw.fd with
            | none => simp [he, hc, hf] at h
            | some bf =>
              simp [he, hc, hf] at h
              exact h.1.symm
          · simp [he, hc] at h
            exact h.1.symm
      · simp [he] at h
        exact h.1.symm

/-- The value of `ReadyRead` once both marks succeed and both queries answer. -/
theorem ReadyRead_eq (rw : RWCancel) (o : SelectOutcome) (s0 s : fdSet) (bc bf : Bool)
    (h0 : fdSet.zero.set rw.fd = some s0) (h1 : s0.set rw.closeFd = some s)
    (hc : o.fdset.check rw.closeFd = some bc) (hf : o.fdset.check rw.fd = some bf) :
    rw.ReadyRead o = some (⟨toInt (max rw.fd rw.closeFd + 1), some s, none, none, none⟩,
      decide (o.err = Error.nil) && !bc && bf) := by
  unfold RWCancel.ReadyRead
  simp only [h0, h1, hc, hf]
  by_cases he : o.err = Error.nil
  · cases bc <;> simp [he]
  · simp [he]

/-- The value of `ReadyRead` when the wait fails. -/
theorem ReadyRead_err (rw : RWCancel) (o : SelectOutcome) (s0 s : fdSet)
    (h0 : fdSet.zero.set rw.fd = some s0) (h1 : s0.set rw.closeFd = some s)
    (he : o.err ≠ Error.nil) :
    rw.ReadyRead o =
      some (⟨toInt (max rw.fd rw.closeFd + 1), some s, none, none, none⟩, false) := by
  unfold RWCancel.ReadyRead
  simp only [h0, h1]
  simp [he]

/-- The value of `ReadyRead` when the signalling pipe is reported ready. -/
theorem ReadyRead_pipe (rw : RWCancel) (o : SelectOutcome) (s0 s : fdSet)
    (h0 : fdSet.zero.set rw.fd = some s0) (h1 : s0.set rw.closeFd = some s)
    (hc : o.fdset.check rw.closeFd = some true) :
    rw.ReadyRead o =
      some (⟨toInt (max rw.fd rw.closeFd + 1), some s, none, none, none⟩, false) := by
  unfold RWCancel.ReadyRead
  simp only [h0, h1, hc]
  by_cases he : o.err = Error.nil <;> simp [he]

/-- The answer of `ReadyWrite` is that of `ReadyRead` with the set moved from the read
position to the write position of the select call. -/
theorem ReadyWrite_eq_ReadyRead (rw : RWCancel) (o : SelectOutcome) :
    rw.ReadyWrite o =
      (rw.ReadyRead o).map
        (fun cb => (⟨cb.1.nfd, cb.1.w, cb.1.r, cb.1.e, cb.1.timeout⟩, cb.2)) := by
  unfold RWCancel.ReadyWrite RWCancel.ReadyRead
  cases h0 : fdSet.zero.set rw.fd with
  | none => simp [h0]
  | some s0 =>
    cases h1 : s0.set rw.closeFd with
    | none => simp [h0, h1]
    | some s =>
      by_cases he : o.err = Error.nil
      · cases hc : o.fdset.check rw.closeFd with
        | none => simp [h0, h1, he, hc]
        | some bc =>
          cases bc
          · cases hf : o.fdset.check rw.fd with
            | none => simp [h0, h1, he, hc, hf]
            | some bf => simp [h0, h1, he, hc, hf]
          · simp [h0, h1, he, hc]
      · simp [h0, h1, he]

/-! ## One turn of the retry loops -/

theorem ErrorIsEAGAIN_nil (E : Nat) : ErrorIsEAGAIN E Error.nil = some false := rfl

theorem ErrorIsEAGAIN_fdClosed (E : Nat) : ErrorIsEAGAIN E fdClosed = some false := rfl

theorem not_final_of_eagain (E : Nat) (err : Error) (h : ErrorIsEAGAIN E err = some true) :
    ¬ (err = Error.nil ∨ ErrorIsEAGAIN E err = some false) := by
  intro hf
  cases hf with
  | inl h0 => rw [h0, ErrorIsEAGAIN_nil] at h; cases h
  | inr h1 => rw [h1] at h; cases h

theorem not_panic_of_eagain (E : Nat) (err : Error) (h : ErrorIsEAGAIN E err = some true) :
    ¬ (ErrorIsEAGAIN E err = none) := by
  intro hf
  rw [hf] at h
  cases h

/-- The select call recorded by `ReadyRead` is the one `readCall` gives. -/
theorem readCall_of_ReadyRead (rw : RWCancel) (o : SelectOutcome) (c : SelectCall) (b : Bool)
    (h : rw.ReadyRead o = some (c, b)) : rw.readCall = some c := by
  obtain ⟨s0, s, h0, h1, hc⟩ := ReadyRead_some rw o c b h
  unfold RWCancel.readCall RWCancel.watched
  rw [h0, Option.some_bind, h1, hc]
  rfl

/-- The two waits issue their select call under the same condition. -/
theorem writeCall_eq_none (rw : RWCancel) : rw.writeCall = none ↔ rw.readCall = none := by
  unfold RWCancel.writeCall RWCancel.readCall
  cases rw.watched <;> simp

theorem attempts_append (cs ds : List Syscall) :
    attempts (cs ++ ds) = attempts cs + attempts ds := by
  unfold attempts
  exact List.countP_append _ cs ds

theorem selects_append (cs ds : List Syscall) :
    selects (cs ++ ds) = selects cs + selects ds := by
  unfold selects
  exact List.countP_append _ cs ds

/-- A read attempt that succeeds or fails for good ends the call. -/
theorem Read_final (E : Nat) (rw : RWCancel) (p : List Byte) (a : ReadOutcome)
    (reads : List ReadOutcome) (waits : List SelectOutcome)
    (h : a.err = Error.nil ∨ ErrorIsEAGAIN E a.err = some false) :
    RWCancel.Read E rw p (a :: reads) waits =
      ⟨Outcome.returned a.n a.err, store a.data p, [Syscall.read rw.fd p.length]⟩ := by
  cases waits <;> simp only [RWCancel.Read, if_pos h]

/-- A read attempt that would block is followed by a wait, whose answer decides. -/
theorem Read_wait (E : Nat) (rw : RWCancel) (p : List Byte) (a : ReadOutcome)
    (reads : List ReadOutcome) (o : SelectOutcome) (waits : List SelectOutcome)
    (c : SelectCall) (b : Bool)
    (h : ErrorIsEAGAIN E a.err = some true) (hr : rw.ReadyRead o = some (c, b)) :
    RWCancel.Read E rw p (a :: reads) (o :: waits) =
      if b = true then
        (RWCancel.Read E rw (store a.data p) reads waits).after
          [Syscall.read rw.fd p.length, Syscall.select c]
      else
        ⟨Outcome.returned 0 fdClosed, store a.data p,
          [Syscall.read rw.fd p.length, Syscall.select c]⟩ := by
  simp only [RWCancel.Read, if_neg (not_final_of_eagain E a.err h),
    if_neg (not_panic_of_eagain E a.err h), hr]
  cases b <;> simp

theorem Write_final (E : Nat) (rw : RWCancel) (p : List Byte) (a : WriteOutcome)
    (writes : List WriteOutcome) (waits : List SelectOutcome)
    (h : a.err = Error.nil ∨ ErrorIsEAGAIN E a.err = some false) :
    RWCancel.Write E rw p (a :: writes) waits =
      ⟨Outcome.returned a.n a.err, p, [Syscall.write rw.fd p]⟩ := by
  cases waits <;> simp only [RWCancel.Write, if_pos h]

theorem Write_wait (E : Nat) (rw : RWCancel) (p : List Byte) (a : WriteOutcome)
    (writes : List WriteOutcome) (o : SelectOutcome) (waits : List SelectOutcome)
    (c : SelectCall) (b : Bool)
    (h : ErrorIsEAGAIN E a.err = some true) (hr : rw.ReadyWrite o = some (c, b)) :
    RWCancel.Write E rw p (a :: writes) (o :: waits) =
      if b = true then
        (RWCancel.Write E rw p writes waits).after [Syscall.write rw.fd p, Syscall.select c]
      else
        ⟨Outcome.returned 0 fdClosed, p, [Syscall.write rw.fd p, Syscall.select c]⟩ := by
  simp only [RWCancel.Write, if_neg (not_final_of_eagain E a.err h),
    if_neg (not_panic_of_eagain E a.err h), hr]
  cases b <;> simp

theorem Read_blocked (E : Nat) (rw : RWCancel) (p : List Byte) (a : ReadOutcome)
    (reads : List ReadOutcome) (c : SelectCall) (h : ErrorIsEAGAIN E a.err = some true)
    (hc : rw.readCall = some c) :
    RWCancel.Read E rw p (a :: reads) [] =
      ⟨Outcome.running, store a.data p, [Syscall.read rw.fd p.length, Syscall.select c]⟩ := by
  simp only [RWCancel.Read, if_neg (not_final_of_eagain E a.err h),
    if_neg (not_panic_of_eagain E a.err h), hc]

theorem Read_unmarked (E : Nat) (rw : RWCancel) (p : List Byte) (a : ReadOutcome)
    (reads : List ReadOutcome) (h : ErrorIsEAGAIN E a.err = some true) (hc : rw.readCall = none) :
    RWCancel.Read E rw p (a :: reads) [] =
      ⟨Outcome.panicked, store a.data p, [Syscall.read rw.fd p.length]⟩ := by
  simp only [RWCancel.Read, if_neg (not_final_of_eagain E a.err h),
    if_neg (not_panic_of_eagain E a.err h), hc]

theorem Read_nil_deref (E : Nat) (rw : RWCancel) (p : List Byte) (a : ReadOutcome)
    (reads : List ReadOutcome) (waits : List SelectOutcome) (hne : a.err ≠ Error.nil)
    (h : ErrorIsEAGAIN E a.err = none) :
    RWCancel.Read E rw p (a :: reads) waits =
      ⟨Outcome.panicked, store a.data p, [Syscall.read rw.fd p.length]⟩ := by
  have hf : ¬ (a.err = Error.nil ∨ ErrorIsEAGAIN E a.err = some false) := by
    intro hf
    cases hf with
    | inl h0 => exact hne h0
    | inr h1 => rw [h] at h1; cases h1
  cases waits <;> simp only [RWCancel.Read, if_neg hf, if_pos h]

theorem Read_panic (E : Nat) (rw : RWCancel) (p : List Byte) (a : ReadOutcome)
    (reads : List ReadOutcome) (o : SelectOutcome) (waits : List SelectOutcome)
    (h : ErrorIsEAGAIN E a.err = some true) (hr : rw.ReadyRead o = none) :
    RWCancel.Read E rw p (a :: reads) (o :: waits) =
      ⟨Outcome.panicked, store a.data p, [Syscall.read rw.fd p.length]⟩ := by
  simp only [RWCancel.Read, if_neg (not_final_of_eagain E a.err h),
    if_neg (not_panic_of_eagain E a.err h), hr]

theorem Write_blocked (E : Nat) (rw : RWCancel) (p : List Byte) (a : WriteOutcome)
    (writes : List WriteOutcome) (c : SelectCall) (h : ErrorIsEAGAIN E a.err = some true)
    (hc : rw.writeCall = some c) :
    RWCancel.Write E rw p (a :: writes) [] =
      ⟨Outcome.running, p, [Syscall.write rw.fd p, Syscall.select c]⟩ := by
  simp only [RWCancel.Write, if_neg (not_final_of_eagain E a.err h),
    if_neg (not_panic_of_eagain E a.err h), hc]

theorem Write_unmarked (E : Nat) (rw : RWCancel) (p : List Byte) (a : WriteOutcome)
    (writes : List WriteOutcome) (h : ErrorIsEAGAIN E a.err = some true) (hc : rw.writeCall = none) :
    RWCancel.Write E rw p (a :: writes) [] =
      ⟨Outcome.panicked, p, [Syscall.write rw.fd p]⟩ := by
  simp only [RWCancel.Write, if_neg (not_final_of_eagain E a.err h),
    if_neg (not_panic_of_eagain E a.err h), hc]

theorem Write_nil_deref (E : Nat) (rw : RWCancel) (p : List Byte) (a : WriteOutcome)
    (writes : List WriteOutcome) (waits : List SelectOutcome) (hne : a.err ≠ Error.nil)
    (h : ErrorIsEAGAIN E a.err = none) :
    RWCancel.Write E rw p (a :: writes) waits =
      ⟨Outcome.panicked, p, [Syscall.write rw.fd p]⟩ := by
  have hf : ¬ (a.err = Error.nil ∨ ErrorIsEAGAIN E a.err = some false) := by
    intro hf
    cases hf with
    | inl h0 => exact hne h0
    | inr h1 => rw [h] at h1; cases h1
  cases waits <;> simp only [RWCancel.Write, if_neg hf, if_pos h]

theorem Write_panic (E : Nat) (rw : RWCancel) (p : List Byte) (a : WriteOutcome)
    (writes : List WriteOutcome) (o : SelectOutcome) (waits : List SelectOutcome)
    (h : ErrorIsEAGAIN E a.err = some true) (hr : rw.ReadyWrite o = none) :
    RWCancel.Write E rw p (a :: writes) (o :: waits) =
      ⟨Outcome.panicked, p, [Syscall.write rw.fd p]⟩ := by
  simp only [RWCancel.Write, if_neg (not_final_of_eagain E a.err h),
    if_neg (not_panic_of_eagain E a.err h), hr]

theorem final_or_eagain (E : Nat) (err : Error) :
    (err = Error.nil ∨ ErrorIsEAGAIN E err = some false) ∨
      (err ≠ Error.nil ∧ ErrorIsEAGAIN E err = none) ∨ ErrorIsEAGAIN E err = some true := by
  cases h : ErrorIsEAGAIN E err with
  | none =>
    refine Or.inr (Or.inl ⟨?_, rfl⟩)
    intro h0
    rw [h0, ErrorIsEAGAIN_nil] at h
    cases h
  | some b =>
    cases b
    · exact Or.inl (Or.inr rfl)
    · exact Or.inr (Or.inr rfl)

/-- An error returned by `Read` is never a would-block error. -/
theorem Read_not_eagain (E : Nat) (rw : RWCancel) (reads : List ReadOutcome) :
    ∀ (p : List Byte) (waits : List SelectOutcome) (n : Int) (err : Error),
      (RWCancel.Read E rw p reads waits).outcome = Outcome.returned n err →
      ErrorIsEAGAIN E err = some false := by
  induction reads with
  | nil =>
    intro p waits n err h
    simp only [RWCancel.Read] at h
    cases h
  | cons a reads ih =>
    intro p waits n err h
    rcases final_or_eagain E a.err with hf | ⟨hne, hp⟩ | he
    · rw [Read_final E rw p a reads waits hf] at h
      injection h with h1 h2
      subst h2
      cases hf with
      | inl h0 => rw [h0]; rfl
      | inr h1 => exact h1
    · rw [Read_nil_deref E rw p a reads waits hne hp] at h
      cases h
    · cases waits with
      | nil =>
        cases hc : rw.readCall with
        | none => rw [Read_unmarked E rw p a reads he hc] at h; cases h
        | some c => rw [Read_blocked E rw p a reads c he hc] at h; cases h
      | cons o waits =>
        cases hr : rw.ReadyRead o with
        | none => rw [Read_panic E rw p a reads o waits he hr] at h; cases h
        | some cb =>
          obtain ⟨c, b⟩ := cb
          rw [Read_wait E rw p a reads o waits c b he hr] at h
          cases b
          · simp only [Bool.false_eq_true, if_false] at h
            injection h with h1 h2
            subst h2
            rfl
          · simp only [if_true, Run.after] at h
            exact ih _ _ _ _ h

/-- An error returned by `Write` is never a would-block error. -/
theorem Write_not_eagain (E : Nat) (rw : RWCancel) (writes : List WriteOutcome) :
    ∀ (p : List Byte) (waits : List SelectOutcome) (n : Int) (err : Error),
      (RWCancel.Write E rw p writes waits).outcome = Outcome.returned n err →
      ErrorIsEAGAIN E err = some false := by
  induction writes with
  | nil =>
    intro p waits n err h
    simp only [RWCancel.Write] at h
    cases h
  | cons a writes ih =>
    intro p waits n err h
    rcases final_or_eagain E a.err with hf | ⟨hne, hp⟩ | he
    · rw [Write_final E rw p a writes waits hf] at h
      injection h with h1 h2
      subst h2
      cases hf with
      | inl h0 => rw [h0]; rfl
      | inr h1 => exact h1
    · rw [Write_nil_deref E rw p a writes waits hne hp] at h
      cases h
    · cases waits with
      | nil =>
        cases hc : rw.writeCall with
        | none => rw [Write_unmarked E rw p a writes he hc] at h; cases h
        | some c => rw [Write_blocked E rw p a writes c he hc] at h; cases h
      | cons o waits =>
        cases hr : rw.ReadyWrite o with
        | none => rw [Write_panic E rw p a writes o waits he hr] at h; cases h
        | some cb =>
          obtain ⟨c, b⟩ := cb
          rw [Write_wait E rw p a writes o waits c b he hr] at h
          cases b
          · simp only [Bool.false_eq_true, if_false] at h
            injection h with h1 h2
            subst h2
            rfl
          · simp only [if_true, Run.after] at h
            exact ih _ _ _ _ h

/-! ## The retry loops as a whole -/

theorem store_length (data p : List Byte) : (store data p).length = p.length := by
  unfold store
  simp only [List.length_take, List.length_append, List.length_drop]
  omega

theorem store_take (data p : List Byte) (h : data.length ≤ p.length) :
    (store data p).take data.length = data := by
  unfold store
  rw [List.take_take, Nat.min_eq_left h, List.take_left]

theorem foldl_store_length (pre : List ReadOutcome) (p : List Byte) :
    (pre.foldl (fun q x => store x.data q) p).length = p.length := by
  induction pre generalizing p with
  | nil => rfl
  | cons x pre ih => rw [List.foldl_cons, ih, store_length]

/-- A wait that reports the descriptor ready and the pipe not ready lets the loop go on. -/
theorem ReadyRead_of_fdReady (rw : RWCancel) (o : SelectOutcome) (h : fdReady rw o) :
    ∃ c, rw.ReadyRead o = some (c, true) := by
  obtain ⟨he, hc, hf⟩ := h
  obtain ⟨s0, h0⟩ := set_of_check o.fdset fdSet.zero rw.fd true hf
  obtain ⟨s, h1⟩ := set_of_check o.fdset s0 rw.closeFd false hc
  refine ⟨⟨toInt (max rw.fd rw.closeFd + 1), some s, none, none, none⟩, ?_⟩
  rw [ReadyRead_eq rw o s0 s false true h0 h1 hc hf]
  simp [he]

theorem ReadyWrite_of_fdReady (rw : RWCancel) (o : SelectOutcome) (h : fdReady rw o) :
    ∃ c, rw.ReadyWrite o = some (c, true) := by
  obtain ⟨c, hc⟩ := ReadyRead_of_fdReady rw o h
  refine ⟨⟨c.nfd, c.w, c.r, c.e, c.timeout⟩, ?_⟩
  rw [ReadyWrite_eq_ReadyRead, hc]
  rfl

/-- The retry loop of `Read`: after would-block attempts, each followed by a wait that
reports the descriptor ready, the first other answer is returned. -/
theorem Read_retry (E : Nat) (rw : RWCancel) (pre : List ReadOutcome) :
    ∀ (p : List Byte) (ws : List SelectOutcome) (a : ReadOutcome)
      (reads : List ReadOutcome) (waits : List SelectOutcome),
      ws.length = pre.length →
      (∀ x ∈ pre, ErrorIsEAGAIN E x.err = some true) →
      (∀ o ∈ ws, fdReady rw o) →
      (a.err = Error.nil ∨ ErrorIsEAGAIN E a.err = some false) →
      (RWCancel.Read E rw p (pre ++ a :: reads) (ws ++ waits)).outcome
          = Outcome.returned a.n a.err ∧
        attempts (RWCancel.Read E rw p (pre ++ a :: reads) (ws ++ waits)).calls
          = pre.length + 1 ∧
        selects (RWCancel.Read E rw p (pre ++ a :: reads) (ws ++ waits)).calls
          = pre.length ∧
        (RWCancel.Read E rw p (pre ++ a :: reads) (ws ++ waits)).p
          = store a.data (pre.foldl (fun q x => store x.data q) p) := by
  induction pre with
  | nil =>
    intro p ws a reads waits hlen _ _ ha
    cases ws with
    | cons o ws => cases hlen
    | nil =>
      simp only [List.nil_append]
      rw [Read_final E rw p a reads waits ha]
      exact ⟨rfl, rfl, rfl, rfl⟩
  | cons x pre ih =>
    intro p ws a reads waits hlen hpre hws ha
    cases ws with
    | nil => cases hlen
    | cons o ws =>
      have hx := hpre x (List.mem_cons_self x pre)
      obtain ⟨c, hc⟩ := ReadyRead_of_fdReady rw o (hws o (List.mem_cons_self o ws))
      have hl : ws.length = pre.length := by
        simp only [List.length_cons] at hlen
        omega
      obtain ⟨h1, h2, h3, h4⟩ := ih (store x.data p) ws a reads waits hl
        (fun y hy => hpre y (List.mem_cons_of_mem x hy))
        (fun y hy => hws y (List.mem_cons_of_mem o hy)) ha
      simp only [List.cons_append]
      rw [Read_wait E rw p x (pre ++ a :: reads) o (ws ++ waits) c true hx hc]
      simp only [if_true, Run.after, attempts_append, selects_append, List.length_cons,
        List.foldl_cons]
      refine ⟨h1, ?_, ?_, h4⟩
      · rw [h2]
        have : attempts [Syscall.read rw.fd p.length, Syscall.select c] = 1 := rfl
        omega
      · rw [h3]
        have : selects [Syscall.read rw.fd p.length, Syscall.select c] = 1 := rfl
        omega

/-- On the same answers `Write` and `Read` end alike and issue the same numbers of calls. -/
theorem Write_eq_Read (E : Nat) (rw : RWCancel) (reads : List ReadOutcome) :
    ∀ (p q : List Byte) (waits : List SelectOutcome),
      (RWCancel.Write E rw q (reads.map ReadOutcome.toWrite) waits).outcome
          = (RWCancel.Read E rw p reads waits).outcome ∧
        attempts (RWCancel.Write E rw q (reads.map ReadOutcome.toWrite) waits).calls
          = attempts (RWCancel.Read E rw p reads waits).calls ∧
        selects (RWCancel.Write E rw q (reads.map ReadOutcome.toWrite) waits).calls
          = selects (RWCancel.Read E rw p reads waits).calls := by
  induction reads with
  | nil =>
    intro p q waits
    exact ⟨rfl, rfl, rfl⟩
  | cons a reads ih =>
    intro p q waits
    simp only [List.map_cons]
    rcases final_or_eagain E a.err with hf | ⟨hne, hp⟩ | he
    · rw [Read_final E rw p a reads waits hf,
        Write_final E rw q a.toWrite (reads.map ReadOutcome.toWrite) waits hf]
      exact ⟨rfl, rfl, rfl⟩
    · rw [Read_nil_deref E rw p a reads waits hne hp,
        Write_nil_deref E rw q a.toWrite (reads.map ReadOutcome.toWrite) waits hne hp]
      exact ⟨rfl, rfl, rfl⟩
    · cases waits with
      | nil =>
        cases hc : rw.readCall with
        | none =>
          rw [Read_unmarked E rw p a reads he hc,
            Write_unmarked E rw q a.toWrite (reads.map ReadOutcome.toWrite) he
              ((writeCall_eq_none rw).2 hc)]
          exact ⟨rfl, rfl, rfl⟩
        | some c =>
          cases hw : rw.writeCall with
          | none => rw [(writeCall_eq_none rw).1 hw] at hc; cases hc
          | some c2 =>
            rw [Read_blocked E rw p a reads c he hc,
              Write_blocked E rw q a.toWrite (reads.map ReadOutcome.toWrite) c2 he hw]
            exact ⟨rfl, rfl, rfl⟩
      | cons o waits =>
        cases hr : rw.ReadyRead o with
        | none =>
          have hw : rw.ReadyWrite o = none := by rw [ReadyWrite_eq_ReadyRead, hr]; rfl
          rw [Read_panic E rw p a reads o waits he hr,
            Write_panic E rw q a.toWrite (reads.map ReadOutcome.toWrite) o waits he hw]
          exact ⟨rfl, rfl, rfl⟩
        | some cb =>
          obtain ⟨c, b⟩ := cb
          have hw : rw.ReadyWrite o =
              some (⟨c.nfd, c.w, c.r, c.e, c.timeout⟩, b) := by
            rw [ReadyWrite_eq_ReadyRead, hr]; rfl
          rw [Read_wait E rw p a reads o waits c b he hr,
            Write_wait E rw q a.toWrite (reads.map ReadOutcome.toWrite) o waits _ b he hw]
          cases b
          · exact ⟨rfl, rfl, rfl⟩
          · obtain ⟨h1, h2, h3⟩ := ih (store a.data p) q waits
            simp only [if_true, Run.after, attempts_append, selects_append]
            refine ⟨h1, ?_, ?_⟩
            · rw [h2]; rfl
            · rw [h3]; rfl

/-- When the set to watch is built, both marks succeeded. -/
theorem marks_of_watched (rw : RWCancel) (h : rw.watched ≠ none) :
    ∃ s0 s, fdSet.zero.set rw.fd = some s0 ∧ s0.set rw.closeFd = some s := by
  unfold RWCancel.watched at h
  cases h0 : fdSet.zero.set rw.fd with
  | none => rw [h0] at h; exact absurd rfl h
  | some s0 =>
    cases h1 : s0.set rw.closeFd with
    | none => rw [h0] at h; exact absurd h1 h
    | some s => exact ⟨s0, s, rfl, h1⟩

/-- Descriptors in 0..1023 can be marked: the set to watch is built. -/
theorem watched_of_range (rw : RWCancel) (hf0 : 0 ≤ rw.fd) (hf1 : rw.fd < 1024)
    (hc0 : 0 ≤ rw.closeFd) (hc1 : rw.closeFd < 1024) : rw.watched ≠ none := by
  obtain ⟨s0, h0⟩ := set_of_range fdSet.zero rw.fd hf0 hf1
  obtain ⟨s, h1⟩ := set_of_range s0 rw.closeFd hc0 hc1
  unfold RWCancel.watched
  rw [h0]
  intro h
  rw [Option.some_bind, h1] at h
  cases h

/-- A wait that fails or reports the pipe ready ends `Read` with the cancellation error. -/
theorem Read_cancelled (E : Nat) (rw : RWCancel) (p : List Byte) (a : ReadOutcome)
    (reads : List ReadOutcome) (o : SelectOutcome) (waits : List SelectOutcome)
    (hsel : rw.watched ≠ none) (ha : ErrorIsEAGAIN E a.err = some true)
    (ho : o.err ≠ Error.nil ∨ o.fdset.check rw.closeFd = some true) :
    ∃ c, RWCancel.Read E rw p (a :: reads) (o :: waits) =
      ⟨Outcome.returned 0 fdClosed, store a.data p,
        [Syscall.read rw.fd p.length, Syscall.select c]⟩ := by
  obtain ⟨s0, s, h0, h1⟩ := marks_of_watched rw hsel
  refine ⟨⟨toInt (max rw.fd rw.closeFd + 1), some s, none, none, none⟩, ?_⟩
  have hr : rw.ReadyRead o =
      some (⟨toInt (max rw.fd rw.closeFd + 1), some s, none, none, none⟩, false) := by
    cases ho with
    | inl he => exact ReadyRead_err rw o s0 s h0 h1 he
    | inr hc => exact ReadyRead_pipe rw o s0 s h0 h1 hc
  rw [Read_wait E rw p a reads o waits _ false ha hr]
  rfl

theorem Cancel_pipe (rw : RWCancel) (pipe : Pipe) (w : WriteOutcome) (hn : w.n = 1) :
    (rw.Cancel pipe w).2.1 ≠ [] := by
  simp [RWCancel.Cancel, hn]

/-- The upper bound passed to select by either wait. -/
theorem nfd_bound (rw : RWCancel) (s0 s : fdSet) (hf : 0 ≤ rw.fd) (hc : 0 ≤ rw.closeFd)
    (h0 : fdSet.zero.set rw.fd = some s0) (h1 : s0.set rw.closeFd = some s) :
    toInt (max rw.fd rw.closeFd + 1) = max rw.fd rw.closeFd + 1 ∧
      rw.fd < max rw.fd rw.closeFd + 1 ∧ rw.closeFd < max rw.fd rw.closeFd + 1 ∧
      (max rw.fd rw.closeFd + 1 = rw.fd + 1 ∨ max rw.fd rw.closeFd + 1 = rw.closeFd + 1) := by
  have hf1 := lt_of_set _ _ _ hf h0
  have hc1 := lt_of_set _ _ _ hc h1
  have hm := max_cases rw.fd rw.closeFd
  refine ⟨toInt_of_range _ (by omega) (by omega), by omega, by omega, by omega⟩

/-- The retry loop of `Write`: after would-block attempts, each followed by a wait that
reports the descriptor ready, the first other answer is returned. -/
theorem Write_retry (E : Nat) (rw : RWCancel) (pre : List WriteOutcome) :
    ∀ (p : List Byte) (ws : List SelectOutcome) (a : WriteOutcome)
      (writes : List WriteOutcome) (waits : List SelectOutcome),
      ws.length = pre.length →
      (∀ x ∈ pre, ErrorIsEAGAIN E x.err = some true) →
      (∀ o ∈ ws, fdReady rw o) →
      (a.err = Error.nil ∨ ErrorIsEAGAIN E a.err = some false) →
      (RWCancel.Write E rw p (pre ++ a :: writes) (ws ++ waits)).outcome
          = Outcome.returned a.n a.err ∧
        attempts (RWCancel.Write E rw p (pre ++ a :: writes) (ws ++ waits)).calls
          = pre.length + 1 ∧
        selects (RWCancel.Write E rw p (pre ++ a :: writes) (ws ++ waits)).calls
          = pre.length := by
  induction pre with
  | nil =>
    intro p ws a writes waits hlen _ _ ha
    cases ws with
    | cons o ws => cases hlen
    | nil =>
      simp only [List.nil_append]
      rw [Write_final E rw p a writes waits ha]
      exact ⟨rfl, rfl, rfl⟩
  | cons x pre ih =>
    intro p ws a writes waits hlen hpre hws ha
    cases ws with
    | nil => cases hlen
    | cons o ws =>
      have hx := hpre x (List.mem_cons_self x pre)
      obtain ⟨c, hc⟩ := ReadyWrite_of_fdReady rw o (hws o (List.mem_cons_self o ws))
      have hl : ws.length = pre.length := by
        simp only [List.length_cons] at hlen
        omega
      obtain ⟨h1, h2, h3⟩ := ih p ws a writes waits hl
        (fun y hy => hpre y (List.mem_cons_of_mem x hy))
        (fun y hy => hws y (List.mem_cons_of_mem o hy)) ha
      simp only [List.cons_append]
      rw [Write_wait E rw p x (pre ++ a :: writes) o (ws ++ waits) c true hx hc]
      simp only [if_true, Run.after, attempts_append, selects_append, List.length_cons]
      refine ⟨h1, ?_, ?_⟩
      · rw [h2]
        have : attempts [Syscall.write rw.fd p, Syscall.select c] = 1 := rfl
        omega
      · rw [h3]
        have : selects [Syscall.write rw.fd p, Syscall.select c] = 1 := rfl
        omega

/-! ## The claims -/

/-- C1: when the first read attempt succeeds (a zero count included) or fails with an
error that is not would-block, `Read` returns exactly that count and error, having
issued that one read and no readiness wait. -/
theorem Read_returns_first_answer (E : Nat) (rw : RWCancel) (p : List Byte)
    (a : ReadOutcome) (reads : List ReadOutcome) (waits : List SelectOutcome)
    (h : a.err = Error.nil ∨ ErrorIsEAGAIN E a.err = some false) :
    (RWCancel.Read E rw p (a :: reads) waits).outcome = Outcome.returned a.n a.err ∧
      (RWCancel.Read E rw p (a :: reads) waits).calls = [Syscall.read rw.fd p.length] ∧
      attempts (RWCancel.Read E rw p (a :: reads) waits).calls = 1 ∧
      selects (RWCancel.Read E rw p (a :: reads) waits).calls = 0 := by
  rw [Read_final E rw p a reads waits h]
  exact ⟨rfl, rfl, rfl, rfl⟩

/-- A run of C1: the first attempt is a zero-byte success. -/
theorem Read_returns_first_answer_witness :
    ((⟨0, Error.nil, []⟩ : ReadOutcome).err = Error.nil ∨
        ErrorIsEAGAIN 11 (⟨0, Error.nil, []⟩ : ReadOutcome).err = some false) ∧
      ((RWCancel.Read 11 chan buf8 [⟨0, Error.nil, []⟩, ⟨5, Error.nil, hello⟩]
          [⟨Error.nil, fdSet.low 8⟩]).outcome = Outcome.returned 0 Error.nil ∧
        (RWCancel.Read 11 chan buf8 [⟨0, Error.nil, []⟩, ⟨5, Error.nil, hello⟩]
          [⟨Error.nil, fdSet.low 8⟩]).calls = [Syscall.read chan.fd buf8.length] ∧
        attempts (RWCancel.Read 11 chan buf8 [⟨0, Error.nil, []⟩, ⟨5, Error.nil, hello⟩]
          [⟨Error.nil, fdSet.low 8⟩]).calls = 1 ∧
        selects (RWCancel.Read 11 chan buf8 [⟨0, Error.nil, []⟩, ⟨5, Error.nil, hello⟩]
          [⟨Error.nil, fdSet.low 8⟩]).calls = 0) :=
  ⟨by decide,
    Read_returns_first_answer 11 chan buf8 ⟨0, Error.nil, []⟩ [⟨5, Error.nil, hello⟩]
      [⟨Error.nil, fdSet.low 8⟩] (by decide)⟩

/-- C2: when the read attempt would block and the wait that follows fails, or reports the
read end of the signalling pipe ready (whatever it reports about the wrapped descriptor),
`Read` returns 0 and the error "fd closed" after that one read attempt and one wait. That
the wait takes place means that the two marks before it did not panic (`watched` is not
`none`), which is so whenever both descriptors are in 0..1023. -/
theorem Read_wait_cancelled (E : Nat) (rw : RWCancel) (p : List Byte) (a : ReadOutcome)
    (reads : List ReadOutcome) (o : SelectOutcome) (waits : List SelectOutcome)
    (hsel : rw.watched ≠ none) (ha : ErrorIsEAGAIN E a.err = some true)
    (ho : o.err ≠ Error.nil ∨ o.fdset.check rw.closeFd = some true) :
    ((RWCancel.Read E rw p (a :: reads) (o :: waits)).outcome
        = Outcome.returned 0 (Error.errorString "fd closed") ∧
      attempts (RWCancel.Read E rw p (a :: reads) (o :: waits)).calls = 1 ∧
      selects (RWCancel.Read E rw p (a :: reads) (o :: waits)).calls = 1) ∧
    (0 ≤ rw.fd → rw.fd < 1024 → 0 ≤ rw.closeFd → rw.closeFd < 1024 →
      rw.watched ≠ none) := by
  obtain ⟨c, hc⟩ := Read_cancelled E rw p a reads o waits hsel ha ho
  rw [hc]
  exact ⟨⟨rfl, rfl, rfl⟩, watched_of_range rw⟩

/-- A run of C2: the wait reports both the pipe and the wrapped descriptor ready. -/
theorem Read_wait_cancelled_witness :
    chan.watched ≠ none ∧ ErrorIsEAGAIN 11 (⟨-1, Error.errno 11, []⟩ : ReadOutcome).err = some true ∧
      ((⟨Error.nil, fdSet.low 24⟩ : SelectOutcome).err ≠ Error.nil ∨
        (⟨Error.nil, fdSet.low 24⟩ : SelectOutcome).fdset.check chan.closeFd = some true) ∧
      (⟨Error.nil, fdSet.low 24⟩ : SelectOutcome).fdset.check chan.fd = some true ∧
      ((RWCancel.Read 11 chan buf8 [⟨-1, Error.errno 11, []⟩, ⟨5, Error.nil, hello⟩]
          [⟨Error.nil, fdSet.low 24⟩]).outcome
          = Outcome.returned 0 (Error.errorString "fd closed") ∧
        attempts (RWCancel.Read 11 chan buf8 [⟨-1, Error.errno 11, []⟩, ⟨5, Error.nil, hello⟩]
          [⟨Error.nil, fdSet.low 24⟩]).calls = 1 ∧
        selects (RWCancel.Read 11 chan buf8 [⟨-1, Error.errno 11, []⟩, ⟨5, Error.nil, hello⟩]
          [⟨Error.nil, fdSet.low 24⟩]).calls = 1) :=
  ⟨by decide, by decide, by decide, by decide,
    (Read_wait_cancelled 11 chan buf8 ⟨-1, Error.errno 11, []⟩ [⟨5, Error.nil, hello⟩]
      ⟨Error.nil, fdSet.low 24⟩ [] (by decide) (by decide) (by decide)).1⟩

/-- C3, as stated, fails. After `Cancel` has queued its byte (so that a wait reports the
pipe ready), a `Read` on a descriptor with data available still issues the read and
returns the data, `(5, nil)`, not `(0, "fd closed")`. And on a channel whose wrapped
descriptor is 1024, which the descriptor set cannot hold, a `Read` whose attempt would
block panics in the mark before the wait and returns nothing. -/
theorem Read_after_Cancel_returns_data :
    ((chan.Cancel [] ⟨1, Error.nil⟩).1 = Error.nil ∧
      (chan.Cancel [] ⟨1, Error.nil⟩).2.1 = [0] ∧
      pipeSeen chan (chan.Cancel [] ⟨1, Error.nil⟩).2.1 ⟨Error.nil, fdSet.low 24⟩ ∧
      (RWCancel.Read 11 chan buf8 [⟨5, Error.nil, hello⟩] [⟨Error.nil, fdSet.low 24⟩]).outcome
        = Outcome.returned 5 Error.nil ∧
      (RWCancel.Read 11 chan buf8 [⟨5, Error.nil, hello⟩] [⟨Error.nil, fdSet.low 24⟩]).calls
        = [Syscall.read 3 8] ∧
      ¬ ((RWCancel.Read 11 chan buf8 [⟨5, Error.nil, hello⟩]
            [⟨Error.nil, fdSet.low 24⟩]).outcome
          = Outcome.returned 0 (Error.errorString "fd closed") ∧
        attempts (RWCancel.Read 11 chan buf8 [⟨5, Error.nil, hello⟩]
            [⟨Error.nil, fdSet.low 24⟩]).calls = 0)) ∧
    (pipeSeen ⟨1024, ⟨4⟩, ⟨5⟩⟩ ((⟨1024, ⟨4⟩, ⟨5⟩⟩ : RWCancel).Cancel [] ⟨1, Error.nil⟩).2.1
        ⟨Error.nil, fdSet.low 16⟩ ∧
      (RWCancel.Read 11 ⟨1024, ⟨4⟩, ⟨5⟩⟩ buf8 [⟨-1, Error.errno 11, []⟩]
        [⟨Error.nil, fdSet.low 16⟩]).outcome = Outcome.panicked ∧
      (RWCancel.Read 11 ⟨1024, ⟨4⟩, ⟨5⟩⟩ buf8 [⟨-1, Error.errno 11, []⟩]
        [⟨Error.nil, fdSet.low 16⟩]).calls = [Syscall.read 1024 8]) := by
  decide

/-- C3, amended: once `Cancel` has written its byte to the signalling pipe (and the byte
stays there), a `Read` that starts afterward issues exactly one read attempt on the
wrapped descriptor. If that attempt would block and the wait takes place (the two marks
before it do not panic, `watched` is not `none`, as for all descriptors in 0..1023),
`Read` returns 0 and "fd closed" after the one wait; if the attempt succeeds or fails
with an error that is not would-block, `Read` returns its count and error. -/
theorem Read_after_Cancel (E : Nat) (rw : RWCancel) (p : List Byte) (pipe : Pipe)
    (w : WriteOutcome) (a : ReadOutcome) (reads : List ReadOutcome) (o : SelectOutcome)
    (waits : List SelectOutcome) (hn : w.n = 1)
    (hsee : pipeSeen rw (rw.Cancel pipe w).2.1 o) :
    attempts (RWCancel.Read E rw p (a :: reads) (o :: waits)).calls = 1 ∧
      (rw.watched ≠ none → ErrorIsEAGAIN E a.err = some true →
        (RWCancel.Read E rw p (a :: reads) (o :: waits)).outcome
            = Outcome.returned 0 (Error.errorString "fd closed") ∧
          selects (RWCancel.Read E rw p (a :: reads) (o :: waits)).calls = 1) ∧
      (a.err = Error.nil ∨ ErrorIsEAGAIN E a.err = some false →
        (RWCancel.Read E rw p (a :: reads) (o :: waits)).outcome
          = Outcome.returned a.n a.err) ∧
      (0 ≤ rw.fd → rw.fd < 1024 → 0 ≤ rw.closeFd → rw.closeFd < 1024 →
        rw.watched ≠ none) := by
  have ho : o.err ≠ Error.nil ∨ o.fdset.check rw.closeFd = some true := by
    by_cases he : o.err = Error.nil
    · exact Or.inr (hsee (Cancel_pipe rw pipe w hn) he)
    · exact Or.inl he
  refine ⟨?_, ?_, ?_, watched_of_range rw⟩
  · rcases final_or_eagain E a.err with hf | ⟨hne, hp⟩ | he
    · rw [Read_final E rw p a reads (o :: waits) hf]
      rfl
    · rw [Read_nil_deref E rw p a reads (o :: waits) hne hp]
      rfl
    · cases hr : rw.ReadyRead o with
      | none =>
        rw [Read_panic E rw p a reads o waits he hr]
        rfl
      | some cb =>
        obtain ⟨c, b⟩ := cb
        have hsel : rw.watched ≠ none := by
          have hc := readCall_of_ReadyRead rw o c b hr
          unfold RWCancel.readCall at hc
          intro hw
          rw [hw] at hc
          cases hc
        obtain ⟨c2, hc2⟩ := Read_cancelled E rw p a reads o waits hsel he ho
        rw [hc2]
        rfl
  · intro hsel he
    obtain ⟨c, hc⟩ := Read_cancelled E rw p a reads o waits hsel he ho
    rw [hc]
    exact ⟨rfl, rfl⟩
  · intro hf
    rw [Read_final E rw p a reads (o :: waits) hf]

/-- A run of the amended C3: the attempt would block, the wait sees the byte. -/
theorem Read_after_Cancel_witness :
    (⟨1, Error.nil⟩ : WriteOutcome).n = 1 ∧
      pipeSeen chan (chan.Cancel [] ⟨1, Error.nil⟩).2.1 ⟨Error.nil, fdSet.low 16⟩ ∧
      chan.watched ≠ none ∧ ErrorIsEAGAIN 11 (Error.errno 11) = some true ∧
      (RWCancel.Read 11 chan buf8 [⟨-1, Error.errno 11, []⟩]
          [⟨Error.nil, fdSet.low 16⟩]).outcome
          = Outcome.returned 0 (Error.errorString "fd closed") ∧
      selects (RWCancel.Read 11 chan buf8 [⟨-1, Error.errno 11, []⟩]
          [⟨Error.nil, fdSet.low 16⟩]).calls = 1 ∧
      attempts (RWCancel.Read 11 chan buf8 [⟨-1, Error.errno 11, []⟩]
          [⟨Error.nil, fdSet.low 16⟩]).calls = 1 :=
  have h := Read_after_Cancel 11 chan buf8 [] ⟨1, Error.nil⟩ ⟨-1, Error.errno 11, []⟩ []
    ⟨Error.nil, fdSet.low 16⟩ [] rfl (by decide)
  ⟨rfl, by decide, by decide, by decide, (h.2.1 (by decide) (by decide)).1,
    (h.2.1 (by decide) (by decide)).2, h.1⟩

/-- C4: whenever `Read` or `Write` returns, the returned error is not a would-block
error: `ErrorIsEAGAIN` is false on it. -/
theorem Read_Write_never_return_EAGAIN (E : Nat) (rw : RWCancel) (p : List Byte)
    (reads : List ReadOutcome) (writes : List WriteOutcome) (waits : List SelectOutcome)
    (n : Int) (err : Error) :
    ((RWCancel.Read E rw p reads waits).outcome = Outcome.returned n err →
        ErrorIsEAGAIN E err = some false) ∧
      ((RWCancel.Write E rw p writes waits).outcome = Outcome.returned n err →
        ErrorIsEAGAIN E err = some false) :=
  ⟨Read_not_eagain E rw reads p waits n err, Write_not_eagain E rw writes p waits n err⟩

/-- Runs of C4: a `Read` cancelled after a would-block attempt, and a `Write` that
succeeds after one. -/
theorem Read_Write_never_return_EAGAIN_witness :
    (RWCancel.Read 11 chan buf8 [⟨-1, Error.errno 11, []⟩] [⟨Error.errno 4, fdSet.zero⟩]).outcome
        = Outcome.returned 0 fdClosed ∧
      (RWCancel.Write 11 chan hello [⟨-1, Error.errno 11⟩, ⟨5, Error.nil⟩]
        [⟨Error.nil, fdSet.low 8⟩]).outcome = Outcome.returned 5 Error.nil ∧
      ErrorIsEAGAIN 11 fdClosed = some false ∧ ErrorIsEAGAIN 11 Error.nil = some false :=
  ⟨by decide, by decide,
    (Read_Write_never_return_EAGAIN 11 chan buf8 [⟨-1, Error.errno 11, []⟩] []
      [⟨Error.errno 4, fdSet.zero⟩] 0 fdClosed).1 (by decide),
    (Read_Write_never_return_EAGAIN 11 chan hello [] [⟨-1, Error.errno 11⟩, ⟨5, Error.nil⟩]
      [⟨Error.nil, fdSet.low 8⟩] 5 Error.nil).2 (by decide)⟩

/-- C5: if the first k read attempts would block, each of the k waits that follow
succeeds and reports the wrapped descriptor ready and the pipe not ready, and attempt
k+1 answers `(n, err)` with `err` nil or not would-block, then `Read` returns exactly
`(n, err)` after k+1 read attempts and k waits; when that attempt delivers a payload `P`
that fits the buffer, `Read` returns `(len P, nil)` and the buffer starts with `P`. -/
theorem Read_retries_until_answer (E : Nat) (rw : RWCancel) (p : List Byte)
    (pre : List ReadOutcome) (ws : List SelectOutcome) (a : ReadOutcome)
    (reads : List ReadOutcome) (waits : List SelectOutcome)
    (hlen : ws.length = pre.length)
    (hpre : ∀ x ∈ pre, ErrorIsEAGAIN E x.err = some true)
    (hws : ∀ o ∈ ws, o.err = Error.nil ∧ o.fdset.check rw.closeFd = some false ∧
      o.fdset.check rw.fd = some true)
    (ha : a.err = Error.nil ∨ ErrorIsEAGAIN E a.err = some false) :
    (RWCancel.Read E rw p (pre ++ a :: reads) (ws ++ waits)).outcome
        = Outcome.returned a.n a.err ∧
      attempts (RWCancel.Read E rw p (pre ++ a :: reads) (ws ++ waits)).calls
        = pre.length + 1 ∧
      selects (RWCancel.Read E rw p (pre ++ a :: reads) (ws ++ waits)).calls
        = pre.length ∧
      (∀ P : List Byte, a = ⟨(P.length : Int), Error.nil, P⟩ → P.length ≤ p.length →
        (RWCancel.Read E rw p (pre ++ a :: reads) (ws ++ waits)).outcome
          = Outcome.returned (P.length : Int) Error.nil ∧
        (RWCancel.Read E rw p (pre ++ a :: reads) (ws ++ waits)).p.take P.length = P) := by
  obtain ⟨h1, h2, h3, h4⟩ := Read_retry E rw pre p ws a reads waits hlen hpre hws ha
  refine ⟨h1, h2, h3, ?_⟩
  intro P hP hfit
  rw [h1, h4]
  subst hP
  refine ⟨rfl, ?_⟩
  apply store_take
  rw [foldl_store_length]
  exact hfit

/-- A run of C5: the peer writes hello after one would-block attempt. -/
theorem Read_retries_until_answer_witness :
    (RWCancel.Read 11 chan buf8 ([⟨-1, Error.errno 11, []⟩] ++ ⟨5, Error.nil, hello⟩ :: [])
          ([⟨Error.nil, fdSet.low 8⟩] ++ [])).outcome = Outcome.returned 5 Error.nil ∧
      attempts (RWCancel.Read 11 chan buf8
          ([⟨-1, Error.errno 11, []⟩] ++ ⟨5, Error.nil, hello⟩ :: [])
          ([⟨Error.nil, fdSet.low 8⟩] ++ [])).calls = 2 ∧
      selects (RWCancel.Read 11 chan buf8
          ([⟨-1, Error.errno 11, []⟩] ++ ⟨5, Error.nil, hello⟩ :: [])
          ([⟨Error.nil, fdSet.low 8⟩] ++ [])).calls = 1 ∧
      (RWCancel.Read 11 chan buf8 ([⟨-1, Error.errno 11, []⟩] ++ ⟨5, Error.nil, hello⟩ :: [])
          ([⟨Error.nil, fdSet.low 8⟩] ++ [])).p.take 5 = hello :=
  have h := Read_retries_until_answer 11 chan buf8 [⟨-1, Error.errno 11, []⟩]
    [⟨Error.nil, fdSet.low 8⟩] ⟨5, Error.nil, hello⟩ [] [] rfl (by decide) (by decide)
    (by decide)
  ⟨h.1, h.2.1, h.2.2.1, (h.2.2.2 hello rfl (by decide)).2⟩

/-- C6 fails on the code: for the channel over descriptor 3 with pipe read end 4,
`ReadyWrite` calls select with bound 5 and a nil read set (and nil exception set); the
one set passed, the write set, holds both 4, the read end of the pipe, and 3. The pipe
is watched for write-readiness, not for read-readiness. -/
theorem ReadyWrite_watches_pipe_for_write :
    (chan.ReadyWrite ⟨Error.nil, fdSet.low 8⟩).map
        (fun cb => (cb.1.nfd, cb.1.r.isSome, cb.1.e.isSome,
          cb.1.w.bind (fun s => s.check chan.closeFd),
          cb.1.w.bind (fun s => s.check chan.fd)))
      = some (5, false, false, some true, some true) := by
  decide

/-- C7: on the same attempt answers and the same wait answers, `Write` (with the write
call and `ReadyWrite`) ends as `Read` does (with the read call and `ReadyRead`): the same
returned pair, the same number of attempts, the same number of waits. In particular,
after would-block attempts each followed by a wait that reports the descriptor ready,
`Write` returns the `(n, nil)` of the first write that succeeds. -/
theorem Write_symmetric_to_Read (E : Nat) (rw : RWCancel) (p q : List Byte)
    (reads : List ReadOutcome) (waits : List SelectOutcome) :
    ((RWCancel.Write E rw q (reads.map ReadOutcome.toWrite) waits).outcome
        = (RWCancel.Read E rw p reads waits).outcome ∧
      attempts (RWCancel.Write E rw q (reads.map ReadOutcome.toWrite) waits).calls
        = attempts (RWCancel.Read E rw p reads waits).calls ∧
      selects (RWCancel.Write E rw q (reads.map ReadOutcome.toWrite) waits).calls
        = selects (RWCancel.Read E rw p reads waits).calls) ∧
    (∀ (pre : List WriteOutcome) (ws : List SelectOutcome) (n : Int)
        (writes : List WriteOutcome),
      ws.length = pre.length →
      (∀ x ∈ pre, ErrorIsEAGAIN E x.err = some true) →
      (∀ o ∈ ws, o.err = Error.nil ∧ o.fdset.check rw.closeFd = some false ∧
        o.fdset.check rw.fd = some true) →
      (RWCancel.Write E rw q (pre ++ ⟨n, Error.nil⟩ :: writes) (ws ++ waits)).outcome
          = Outcome.returned n Error.nil ∧
        attempts (RWCancel.Write E rw q (pre ++ ⟨n, Error.nil⟩ :: writes)
          (ws ++ waits)).calls = pre.length + 1) := by
  refine ⟨Write_eq_Read E rw reads p q waits, ?_⟩
  intro pre ws n writes hlen hpre hws
  obtain ⟨h1, h2, _⟩ := Write_retry E rw pre q ws ⟨n, Error.nil⟩ writes waits hlen hpre hws
    (Or.inl rfl)
  exact ⟨h1, h2⟩

/-- A run of C7: the peer drains after one would-block attempt and the write of hello
then succeeds in full. -/
theorem Write_symmetric_to_Read_witness :
    (RWCancel.Write 11 chan hello ([⟨-1, Error.errno 11⟩] ++ ⟨5, Error.nil⟩ :: [])
        ([⟨Error.nil, fdSet.low 8⟩] ++ [])).outcome = Outcome.returned 5 Error.nil ∧
      attempts (RWCancel.Write 11 chan hello ([⟨-1, Error.errno 11⟩] ++ ⟨5, Error.nil⟩ :: [])
        ([⟨Error.nil, fdSet.low 8⟩] ++ [])).calls = 1 + 1 :=
  (Write_symmetric_to_Read 11 chan buf8 hello [] []).2 [⟨-1, Error.errno 11⟩]
    [⟨Error.nil, fdSet.low 8⟩] 5 [] rfl (by decide) (by decide)

/-- C8: starting from the zero descriptor set and marking each index of a list `L` of
indices in 0..1023 (duplicates allowed) does not panic, and afterwards the query of
an index `j` in 0..1023 is true exactly when `j` occurs in `L`. One more mark of an
index `i` makes its query true (bit 63 of a word included), leaves every other query as
it was, and marking `i` again changes nothing. -/
theorem fdSet_mark_query (L : List Int) (hL : ∀ i ∈ L, 0 ≤ i ∧ i < 1024) :
    ∃ s, L.foldlM fdSet.set fdSet.zero = some s ∧
      (∀ j : Int, 0 ≤ j → j < 1024 → s.check j = some (decide (j ∈ L))) ∧
      (∀ i : Int, 0 ≤ i → i < 1024 →
        ∃ s1, s.set i = some s1 ∧ s1.check i = some true ∧
          (∀ j : Int, 0 ≤ j → j < 1024 → j ≠ i → s1.check j = s.check j) ∧
          s1.set i = some s1) := by
  obtain ⟨s, _, hs, _, _⟩ := foldlM_set L hL fdSet.zero 0 (le_refl 0) (by decide)
  refine ⟨s, hs, ?_, ?_⟩
  · intro j hj0 hj1
    obtain ⟨s2, b, h1, h2, h3⟩ := foldlM_set L hL fdSet.zero j hj0 hj1
    rw [hs] at h1
    injection h1 with h1
    subst h1
    obtain ⟨k, r, _, _, hk, hr⟩ := index_split j hj0 hj1
    have hb : b = false := by
      simp only [fdSet.check, hk, hr, fdSet.zero, Nat.zero_and] at h2
      injection h2 with h2
      rw [← h2]
      rfl
    rw [h3, hb, Bool.false_or]
  · intro i hi0 hi1
    obtain ⟨s1, b, h1, h2, h3⟩ := check_set s i i hi0 hi1 hi0 hi1
    refine ⟨s1, h1, ?_, ?_, ?_⟩
    · rw [h3]; simp
    · intro j hj0 hj1 hne
      obtain ⟨s2, b2, h4, h5, h6⟩ := check_set s i j hi0 hi1 hj0 hj1
      rw [h1] at h4
      injection h4 with h4
      subst h4
      rw [h6, h5]
      simp [hne]
    · obtain ⟨k, r, _, _, hk, hr⟩ := index_split i hi0 hi1
      simp only [fdSet.set, hk, hr] at h1 ⊢
      injection h1 with h1
      subst h1
      simp only [Function.update_same, Function.update_idem, Nat.or_assoc, Nat.or_self]

/-- A run of C8 with a duplicate and with bit 63 of the first and of the last word. -/
theorem fdSet_mark_query_witness :
    (∀ i ∈ ([3, 63, 3, 1023] : List Int), 0 ≤ i ∧ i < 1024) ∧
      ∃ s, ([3, 63, 3, 1023] : List Int).foldlM fdSet.set fdSet.zero = some s ∧
        (∀ j : Int, 0 ≤ j → j < 1024 →
          s.check j = some (decide (j ∈ ([3, 63, 3, 1023] : List Int)))) ∧
        (∀ i : Int, 0 ≤ i → i < 1024 →
          ∃ s1, s.set i = some s1 ∧ s1.check i = some true ∧
            (∀ j : Int, 0 ≤ j → j < 1024 → j ≠ i → s1.check j = s.check j) ∧
            s1.set i = some s1) :=
  ⟨by decide, fdSet_mark_query [3, 63, 3, 1023] (by decide)⟩

/-- C9: for a channel whose wrapped descriptor and pipe read descriptor are non-negative,
the upper bound that `ReadyRead` and `ReadyWrite` pass to select is `max(fd, closeFd) + 1`
without wrap-around: it is greater than both descriptors and is one more than one of
them. Both waits do reach the select call when the descriptors are below 1024. -/
theorem select_bound_is_max_plus_one (rw : RWCancel) (hf : 0 ≤ rw.fd) (hc : 0 ≤ rw.closeFd) :
    (∀ (o : SelectOutcome) (c : SelectCall) (b : Bool),
        rw.ReadyRead o = some (c, b) ∨ rw.ReadyWrite o = some (c, b) →
        c.nfd = max rw.fd rw.closeFd + 1 ∧ rw.fd < c.nfd ∧ rw.closeFd < c.nfd ∧
          (c.nfd = rw.fd + 1 ∨ c.nfd = rw.closeFd + 1)) ∧
      (rw.fd < 1024 → rw.closeFd < 1024 → ∀ o : SelectOutcome,
        (∃ c b, rw.ReadyRead o = some (c, b)) ∧ (∃ c b, rw.ReadyWrite o = some (c, b))) := by
  constructor
  · intro o c b h
    have key : ∃ s0 s, fdSet.zero.set rw.fd = some s0 ∧ s0.set rw.closeFd = some s ∧
        c.nfd = toInt (max rw.fd rw.closeFd + 1) := by
      cases h with
      | inl hr =>
        obtain ⟨s0, s, h0, h1, hcall⟩ := ReadyRead_some rw o c b hr
        exact ⟨s0, s, h0, h1, by rw [hcall]⟩
      | inr hw =>
        rw [ReadyWrite_eq_ReadyRead] at hw
        cases hr : rw.ReadyRead o with
        | none => rw [hr] at hw; cases hw
        | some cb =>
          obtain ⟨c1, b1⟩ := cb
          rw [hr] at hw
          simp only [Option.map, Option.some.injEq, Prod.mk.injEq] at hw
          obtain ⟨s0, s, h0, h1, hcall⟩ := ReadyRead_some rw o c1 b1 hr
          exact ⟨s0, s, h0, h1, by rw [← hw.1, hcall]⟩
    obtain ⟨s0, s, h0, h1, hn⟩ := key
    obtain ⟨e1, e2, e3, e4⟩ := nfd_bound rw s0 s hf hc h0 h1
    rw [hn, e1]
    exact ⟨rfl, e2, e3, e4⟩
  · intro hf1 hc1 o
    obtain ⟨s0, h0⟩ := set_of_range fdSet.zero rw.fd hf hf1
    obtain ⟨s, h1⟩ := set_of_range s0 rw.closeFd hc hc1
    obtain ⟨bc, hbc⟩ := check_of_range o.fdset rw.closeFd hc hc1
    obtain ⟨bf, hbf⟩ := check_of_range o.fdset rw.fd hf hf1
    have hr := ReadyRead_eq rw o s0 s bc bf h0 h1 hbc hbf
    refine ⟨⟨_, _, hr⟩, ?_⟩
    rw [ReadyWrite_eq_ReadyRead, hr]
    exact ⟨_, _, rfl⟩

/-- A run of C9 at the last index of the descriptor set: descriptors 1023 and 4 give the
bound 1024. -/
theorem select_bound_is_max_plus_one_witness :
    (0 : Int) ≤ (⟨1023, ⟨4⟩, ⟨5⟩⟩ : RWCancel).fd ∧
      (0 : Int) ≤ (⟨1023, ⟨4⟩, ⟨5⟩⟩ : RWCancel).closeFd ∧
      ((⟨1023, ⟨4⟩, ⟨5⟩⟩ : RWCancel).ReadyRead ⟨Error.nil, fdSet.zero⟩).map
        (fun cb => cb.1.nfd) = some 1024 ∧
      ((⟨1023, ⟨4⟩, ⟨5⟩⟩ : RWCancel).ReadyWrite ⟨Error.nil, fdSet.zero⟩).map
        (fun cb => cb.1.nfd) = some 1024 ∧
      ∀ o : SelectOutcome,
        (∃ c b, (⟨1023, ⟨4⟩, ⟨5⟩⟩ : RWCancel).ReadyRead o = some (c, b)) ∧
          (∃ c b, (⟨1023, ⟨4⟩, ⟨5⟩⟩ : RWCancel).ReadyWrite o = some (c, b)) :=
  ⟨by decide, by decide, by decide, by decide,
    (select_bound_is_max_plus_one ⟨1023, ⟨4⟩, ⟨5⟩⟩ (by decide) (by decide)).2
      (by decide) (by decide)⟩

/-- C10, as stated, fails: on a nil `*os.PathError` boxed in the interface the type
assertion succeeds with a nil `pe`, and evaluating `pe.Err` panics; `ErrorIsEAGAIN`
returns neither true nor false there. -/
theorem ErrorIsEAGAIN_nil_PathError :
    ErrorIsEAGAIN 11 Error.nilPathError = none ∧
      ¬ (∃ b : Bool, ErrorIsEAGAIN 11 Error.nilPathError = some b) := by
  refine ⟨rfl, ?_⟩
  rintro ⟨b, hb⟩
  cases hb

/-- C10, amended: on every error other than a nil `*os.PathError` boxed in the
interface, `ErrorIsEAGAIN` returns a boolean, which is true exactly on the errno EAGAIN
and on a path error whose `Err` field is the errno EAGAIN. It is false on nil, on any
other errno, on a path error around anything else (a second path error around EAGAIN
and a nil path error included), and on errors of any other type, whatever they wrap. -/
theorem ErrorIsEAGAIN_iff (E : Nat) (err : Error) (hne : err ≠ Error.nilPathError) :
    (∃ b : Bool, ErrorIsEAGAIN E err = some b ∧
        (b = true ↔
          (err = Error.errno E ∨ ∃ op path, err = Error.pathError op path (Error.errno E)))) ∧
      ErrorIsEAGAIN E Error.nil = some false ∧
      (∀ e : Nat, ErrorIsEAGAIN E (Error.errno e) = some (decide (e = E))) ∧
      (∀ (op path : String) (e : Nat),
        ErrorIsEAGAIN E (Error.pathError op path (Error.errno e)) = some (decide (e = E))) ∧
      (∀ (op path op2 path2 : String) (inner : Error),
        ErrorIsEAGAIN E (Error.pathError op path (Error.pathError op2 path2 inner))
          = some false) ∧
      (∀ op path : String,
        ErrorIsEAGAIN E (Error.pathError op path Error.nilPathError) = some false) ∧
      (∀ s : String, ErrorIsEAGAIN E (Error.errorString s) = some false) ∧
      (∀ (typ : String) (inner : Error),
        ErrorIsEAGAIN E (Error.other typ inner) = some false) := by
  refine ⟨?_, rfl, ?_, ?_, fun _ _ _ _ _ => rfl, fun _ _ => rfl, fun _ => rfl,
    fun _ _ => rfl⟩
  · cases err with
    | nil => exact ⟨false, rfl, by simp⟩
    | errno e =>
      refine ⟨decide (e = E), ?_, by simp⟩
      by_cases h : e = E <;>
        simp [ErrorIsEAGAIN, isErrnoEAGAIN, Error.asPathError, Error.asErrno, h]
    | pathError op path inner =>
      cases inner with
      | errno e =>
        refine ⟨decide (e = E), ?_, by simp⟩
        by_cases h : e = E <;>
          simp [ErrorIsEAGAIN, isErrnoEAGAIN, Error.asPathError, Error.asErrno, h]
      | nil => exact ⟨false, rfl, by simp⟩
      | pathError op2 path2 inner2 => exact ⟨false, rfl, by simp⟩
      | nilPathError => exact ⟨false, rfl, by simp⟩
      | errorString s => exact ⟨false, rfl, by simp⟩
      | other typ inner2 => exact ⟨false, rfl, by simp⟩
    | nilPathError => exact absurd rfl hne
    | errorString s => exact ⟨false, rfl, by simp⟩
    | other typ inner => exact ⟨false, rfl, by simp⟩
  · intro e
    by_cases h : e = E <;>
      simp [ErrorIsEAGAIN, isErrnoEAGAIN, Error.asPathError, Error.asErrno, h]
  · intro op path e
    by_cases h : e = E <;>
      simp [ErrorIsEAGAIN, isErrnoEAGAIN, Error.asPathError, Error.asErrno, h]

/-- Runs of the amended C10: the errno EAGAIN inside a path error, and another errno. -/
theorem ErrorIsEAGAIN_iff_witness :
    Error.pathError "read" "/dev/net/tun" (Error.errno 11) ≠ Error.nilPathError ∧
      ErrorIsEAGAIN 11 (Error.pathError "read" "/dev/net/tun" (Error.errno 11)) = some true ∧
      ErrorIsEAGAIN 11 (Error.errno 9) = some false ∧
      ∃ b : Bool, ErrorIsEAGAIN 11 (Error.pathError "read" "/dev/net/tun" (Error.errno 11))
          = some b ∧
        (b = true ↔
          (Error.pathError "read" "/dev/net/tun" (Error.errno 11) = Error.errno 11 ∨
            ∃ op path, Error.pathError "read" "/dev/net/tun" (Error.errno 11)
              = Error.pathError op path (Error.errno 11))) :=
  ⟨by decide, by decide, by decide,
    (ErrorIsEAGAIN_iff 11 (Error.pathError "read" "/dev/net/tun" (Error.errno 11))
      (by decide)).1⟩

end rwcancel
